import Mathlib

/-!
Verification of `current_players.py` (steam_scripts): a shallow embedding of
the catalog cache, catalog matcher, metric fetcher and result presenter,
together with theorems settling the specification claims.

Conventions of the embedding:
* JSON objects are structures whose optional fields are `Option` (an absent
  key, which raises `KeyError` in Python, is `none`);
* network calls are parameters: a metric fetch is a function
  `Nat → Except TransportError MetricResponse`, a transport failure being
  `Except.error`;
* the asyncio event loop is made explicit for `get_player_counts`: futures
  are tagged with their launch index, a run of the loop is an arbitrary
  permutation of the tagged futures (the completion order), and
  `asyncio.gather` reassembles the results in launch order;
* `sys.exit` after a "no results" message, an uncaught exception, and a
  normal render are the three constructors of `RenderResult`.
-/

namespace SteamScripts

/-- The inner object of the metric endpoint's JSON document
`{ response: { player_count: ... } }`; `player_count` is `none` when the
provider has no data for the id (the key is absent). -/
structure PlayerResponse where
  player_count : Option Nat
deriving DecidableEq

/-- The metric endpoint's JSON document.  `response = none` models a document
without the `response` key (also a `KeyError` in Python). -/
structure MetricResponse where
  response : Option PlayerResponse
deriving DecidableEq

/-- Transport-level failures of `requests.get` (timeout, connection error). -/
inductive TransportError
  | timeout
  | connectionError
deriving DecidableEq

/-- The body of the loop over gathered responses in `get_player_counts`
(lines 53-57): `response.json()["response"]["player_count"]` with
`except KeyError: append(0)`.  A missing `response` key or a missing
`player_count` key both land in the `except` branch and yield 0. -/
def extractCount (r : MetricResponse) : Nat :=
  match r.response with
  | none => 0
  | some pr => pr.player_count.getD 0

/-- Model of `await asyncio.gather(*futures)` (line 53): if every future succeeded the
results are returned in the order the futures were passed; if any future
raised, the exception propagates (it is raised out of `gather`, before the
`try` around the per-response body). -/
def gather {α : Type} : List (Except TransportError α) → Except TransportError (List α)
  | [] => .ok []
  | .error e :: _ => .error e
  | .ok r :: rest =>
    match gather rest with
    | .error e => .error e
    | .ok rs => .ok (r :: rs)

/-- Embedding of `get_player_counts` (lines 44-57): launch one `requests.get` per app id in
input order, gather, then append `extractCount` of each response to
`app_players`.  A transport error escapes the whole coroutine. -/
def get_player_counts (fetch : Nat → Except TransportError MetricResponse)
    (app_ids : List Nat) (app_players : List Nat) : Except TransportError (List Nat) :=
  match gather (app_ids.map fetch) with
  | .error e => .error e
  | .ok responses => .ok (app_players ++ responses.map extractCount)

/-- Tag a list of results with consecutive launch indices starting at `k`:
the futures of `get_player_counts` are `tagFrom 0` of the per-id responses,
in launch (= input) order. -/
def tagFrom {α : Type} (k : Nat) : List α → List (Nat × α)
  | [] => []
  | r :: rs => (k, r) :: tagFrom (k + 1) rs

/-- Reassembly step of `asyncio.gather` over an event-loop run: from the
completed futures (in completion order), read the results of launch indices
`i, i+1, ...` (`n` of them) back in launch order.  `none` only if some
launch index never completed. -/
def collectFrom {α : Type} (completed : List (Nat × α)) : Nat → Nat → Option (List α)
  | _, 0 => some []
  | i, Nat.succ n =>
    match completed.find? (fun p => p.1 == i) with
    | none => none
    | some p =>
      match collectFrom completed (i + 1) n with
      | none => none
      | some rest => some (p.2 :: rest)

/-- Embedding of `get_player_counts` run on an explicit event-loop schedule: `completed`
is the list of tagged futures in the order the event loop completed them
(any permutation of `tagFrom 0` of the responses); `gather` reassembles them
in launch order and the loop body appends the extracted counts.  Transport
errors are not modelled here (every future completed with a response). -/
def get_player_counts_sched (app_ids : List Nat)
    (completed : List (Nat × MetricResponse)) (app_players : List Nat) : Option (List Nat) :=
  match collectFrom completed 0 app_ids.length with
  | none => none
  | some responses => some (app_players ++ responses.map extractCount)

/-- One entry of the cached catalog JSON:
`{ appid: integer, name: string }`. -/
structure CatalogEntry where
  appid : Nat
  name : String
deriving DecidableEq

/-- A token of a compiled regular expression, as far as this program
exercises them: a literal character, or the `.` metacharacter (match any
character). -/
inductive RTok
  | lit (c : Char)
  | anyChar
deriving DecidableEq

/-- Model of `re.compile(re.escape(s))`: after `re.escape`, every character of `s` is
a literal token. -/
def re_escape (s : List Char) : List RTok :=
  s.map RTok.lit

/-- Compiling the raw (unescaped) string, where `.` is the any-character
metacharacter.  Used only to contrast with `re_escape`: the program never
compiles an unescaped query. -/
def compileRaw (s : List Char) : List RTok :=
  s.map (fun c => if c = '.' then RTok.anyChar else RTok.lit c)

/-- Does one token match one character. -/
def tokMatch : RTok → Char → Bool
  | .lit c, d => c == d
  | .anyChar, _ => true

/-- Does the token list match a prefix of the character list. -/
def matchHere : List RTok → List Char → Bool
  | [], _ => true
  | _ :: _, [] => false
  | t :: ts, c :: cs => tokMatch t c && matchHere ts cs

/-- Model of `pattern.search(s)`: does the token list match anywhere in the character
list (at some suffix). -/
def searchTokens (p : List RTok) : List Char → Bool
  | [] => matchHere p []
  | c :: cs => matchHere p (c :: cs) || searchTokens p cs

/-- Python's `str.lower()`: lowercase every character, as a character
list. -/
def strLower (s : String) : List Char :=
  s.data.map Char.toLower

/-- The match test of `get_apps_info` (lines 75 and 81):
`re.compile(re.escape(search_string.lower())).search(app_name.lower())`. -/
def appMatches (search_string app_name : String) : Bool :=
  searchTokens (re_escape (strLower search_string)) (strLower app_name)

/-- Embedding of `get_apps_info` (lines 60-96): filter the catalog by `appMatches`,
collect the parallel lists of matching ids and names, then fetch the player
counts for the ids.  The cached snapshot and the network are parameters. -/
def get_apps_info (app_list : List CatalogEntry)
    (fetch : Nat → Except TransportError MetricResponse) (search_string : String) :
    Except TransportError (List Nat × List String × List Nat) :=
  let found := app_list.filter (fun e => appMatches search_string e.name)
  let found_app_ids := found.map (fun e => e.appid)
  let found_app_names := found.map (fun e => e.name)
  match get_player_counts fetch found_app_ids [] with
  | .error e => .error e
  | .ok found_app_players => .ok (found_app_ids, found_app_names, found_app_players)

/-- A zipped record of `print_player_table`: `(players, id, name)`, the tuple
order produced by `zip(found_app_players, found_app_ids, found_app_names)`
(line 109). -/
abbrev Row := Nat × Nat × String

/-- Python's comparison of two character lists: lexicographic by code
point. -/
def charListLe : List Char → List Char → Bool
  | [], _ => true
  | _ :: _, [] => false
  | c :: cs, d :: ds =>
    c.toNat < d.toNat || (c.toNat == d.toNat && charListLe cs ds)

/-- Python's `<=` on `(players, id, name)` tuples: lexicographic on the
components. -/
def rowLe (a b : Row) : Bool :=
  a.1 < b.1 || (a.1 == b.1 && (a.2.1 < b.2.1 || (a.2.1 == b.2.1 && charListLe a.2.2.data b.2.2.data)))

/-- Stable insertion of a row into an already sorted list: the new row goes
before the first element it compares `rowLe` to. -/
def insertRow (a : Row) : List Row → List Row
  | [] => [a]
  | y :: ys => if rowLe a y then a :: y :: ys else y :: insertRow a ys

/-- Embedding of `sorted(zipped)` (line 110): Python's stable ascending sort of the
`(players, id, name)` tuples, embedded as stable insertion sort (any stable
comparison sort computes the same list for a total order). -/
def sortRows : List Row → List Row
  | [] => []
  | a :: rest => insertRow a (sortRows rest)

/-- The selection loop of `print_player_table` (lines 121-126):
`for n in range(len(found)): if n >= num_rows: break; display.append(found.pop())`.
`fuel` is the iteration count fixed by `range` (the original length), `n` the
loop index, `display` and `rest` the accumulated display lists and what is
left of the sorted lists, as the single list of zipped rows (the three
parallel lists are popped in lockstep). -/
def popLoop (num_rows : Nat) : Nat → Nat → List Row → List Row → List Row × List Row
  | 0, _, display, rest => (display, rest)
  | Nat.succ fuel, n, display, rest =>
    if num_rows ≤ n then (display, rest)
    else
      match rest.getLast? with
      | none => (display, rest)
      | some x => popLoop num_rows fuel (n + 1) (display ++ [x]) rest.dropLast

/-- The display subset selected by the loop: starts with empty display lists,
loop bound `len(found)`, loop index 0. -/
def selectDisplay (sorted_rows : List Row) (num_rows : Nat) : List Row :=
  (popLoop num_rows sorted_rows.length 0 [] sorted_rows).1

/-- Model of `"{:<w}"` formatting: left justify to width `w` with spaces, never
truncating. -/
def padRight (s : String) (w : Nat) : String :=
  s ++ String.mk (List.replicate (w - s.length) ' ')

/-- Model of `max(display_app_names, key=len)`: keeps the first name of maximal length;
Python's `max` raises `ValueError` on an empty list (`none` here). -/
def maxByLen : List String → Option String
  | [] => none
  | s :: rest => some (rest.foldl (fun acc x => if x.length > acc.length then x else acc) s)

/-- One three-line block plus rule of the list format (lines 135-140). -/
def listLines (display : List Row) (w : Nat) : List String :=
  let rule := String.mk (List.replicate (w / 3) '-')
  rule :: display.flatMap (fun r =>
    [padRight "App ID:" 10 ++ toString r.2.1,
     padRight "Name:" 10 ++ r.2.2,
     padRight "Players:" 10 ++ toString r.1,
     rule])

/-- The table header `"| {id:<10} | {name:<{mid_space}} | {players:<10} |"`
(lines 149-150). -/
def tableHeader (mid_space : Nat) : String :=
  "| " ++ padRight "ID" 10 ++ " | " ++ padRight "App Name" mid_space ++ " | " ++ padRight "Players" 10 ++ " |"

/-- The table format (lines 142-166): rule/header/rule, one row per record
with the name truncated to `mid_space`, rule/header/rule again. -/
def tableLines (display : List Row) (mid_space : Nat) : List String :=
  let header := tableHeader mid_space
  let rule := String.mk (List.replicate header.length '-')
  [rule, header, rule]
    ++ display.map (fun r =>
      "| " ++ padRight (toString r.2.1) 10 ++ " | "
        ++ padRight (r.2.2.take mid_space) mid_space ++ " | "
        ++ padRight (toString r.1) 10 ++ " |")
    ++ [rule, header, rule]

/-- Outcome of `print_player_table`: a "no results" message on stderr
followed by `sys.exit()` (a clean, zero-status termination, no table
rendered); an uncaught exception (process crash); or the rendered lines. -/
inductive RenderResult
  | noMatches (msg : String)
  | crashed (exc : String)
  | output (lines : List String)
deriving DecidableEq

/-- Embedding of `print_player_table` (lines 99-166).  `term_width` is
`os.get_terminal_size().columns`, `none` when the call raises `OSError`
(no terminal attached); `print_list` is the `PRINT_LIST` global.  Stdout
diagnostics ("Number of Apps ...") are elided; the result captures the
control flow and the rendered lines. -/
def print_player_table (found_app_ids : List Nat) (found_app_names : List String)
    (found_app_players : List Nat) (num_rows : Nat) (print_list : Bool)
    (term_width : Option Nat) : RenderResult :=
  if found_app_ids.isEmpty then
    .noMatches "No App ID\x27s found with search term"
  else if found_app_names.isEmpty then
    .noMatches "No App Names found with search term"
  else
    let zipped := sortRows (found_app_players.zip (found_app_ids.zip found_app_names))
    let display := selectDisplay zipped num_rows
    match term_width with
    | none => .crashed "OSError"
    | some w =>
      if print_list then
        .output (listLines display w)
      else
        match maxByLen (display.map (fun r => r.2.2)) with
        | none => .crashed "ValueError"
        | some longest =>
          let mid_space := if longest.length > w / 3 then w / 3 else longest.length
          .output (tableLines display mid_space)

/-- The local filesystem state the cache logic touches: whether
`TEMP_DATA_DIR` exists and whether `APP_LIST_FILE` exists inside it. -/
structure CacheFS where
  dirExists : Bool
  fileExists : Bool
deriving DecidableEq

/-- Errors of the cache phase, named after the Python exceptions. -/
inductive OSErr
  | fileNotFound
  | dirNotEmpty
deriving DecidableEq

/-- Model of `os.removedirs(TEMP_DATA_DIR)` (line 176): `rmdir` of the leaf raises
`FileNotFoundError` if the directory is absent and `OSError` (`ENOTEMPTY`)
if it still holds the cache file; errors while pruning the parents are
ignored, so they are not modelled. -/
def removedirs (fs : CacheFS) : Except OSErr CacheFS :=
  if fs.dirExists then
    if fs.fileExists then .error .dirNotEmpty
    else .ok ⟨false, false⟩
  else .error .fileNotFound

/-- Result of the cache phase of `main`: the filesystem afterwards, and
whether `get_app_list` was called (the catalog refetched). -/
structure CacheOutcome where
  fs : CacheFS
  fetched : Bool
deriving DecidableEq

/-- The cache phase of `main` (lines 175-182): optional `removedirs`, then
`makedirs` if the directory is missing, then `get_app_list` if the cache
file is missing (assumed to succeed and write the file).  An uncaught
exception from `removedirs` aborts `main` with a traceback. -/
def main_cache_phase (clear_cache : Bool) (fs : CacheFS) : Except OSErr CacheOutcome :=
  match (if clear_cache then removedirs fs else .ok fs) with
  | .error e => .error e
  | .ok fs1 =>
    let fs2 : CacheFS := if fs1.dirExists then fs1 else ⟨true, fs1.fileExists⟩
    if fs2.fileExists then .ok ⟨fs2, false⟩
    else .ok ⟨⟨fs2.dirExists, true⟩, true⟩

/-- Concrete provider used to witness the claims: every id has a metric. -/
def wProvider : Nat → MetricResponse := fun id => ⟨some ⟨some (2 * id)⟩⟩

/-- A completion order for the two futures of ids `[100, 200]` in which the
second-launched future finishes first. -/
def wCompleted : List (Nat × MetricResponse) :=
  [(1, wProvider 200), (0, wProvider 100)]

/-- Concrete provider whose responses carry no `player_count` key. -/
def wProviderAbsent : Nat → MetricResponse := fun _ => ⟨some ⟨none⟩⟩

/-- A fetch that fails at the transport level for every id. -/
def failFetch : Nat → Except TransportError MetricResponse := fun _ => .error .timeout

/-- A fetch that succeeds with a fixed count for every id. -/
def okFetch : Nat → Except TransportError MetricResponse := fun _ => .ok ⟨some ⟨some 7⟩⟩

/-- A concrete two-entry catalog snapshot used to witness the claims. -/
def wCatalog : List CatalogEntry := [⟨10, "Portal"⟩, ⟨20, "Dota"⟩]

/-! ## Lemmas about the metric fetcher -/

theorem gather_map_ok {α : Type} (rs : List α) : gather (rs.map Except.ok) = .ok rs := by
  induction rs with
  | nil => rfl
  | cons r rest ih => simp [gather, ih]

theorem gather_ok_length {α : Type} {l : List (Except TransportError α)} {rs : List α}
    (h : gather l = .ok rs) : rs.length = l.length := by
  induction l generalizing rs with
  | nil => cases h; rfl
  | cons x rest ih =>
    cases x with
    | error e => simp [gather] at h
    | ok r =>
      rw [gather] at h
      cases hg : gather rest with
      | error e => rw [hg] at h; cases h
      | ok rs' => rw [hg] at h; cases h; simpa using ih hg

theorem gather_error_of_mem {α : Type} {l : List (Except TransportError α)} {e : TransportError}
    (h : Except.error e ∈ l) : ∃ e', gather l = .error e' := by
  induction l with
  | nil => cases h
  | cons x rest ih =>
    cases x with
    | error e' => exact ⟨e', rfl⟩
    | ok r =>
      rcases List.mem_cons.mp h with h' | h'
      · exact absurd h' (by simp)
      · obtain ⟨e', he'⟩ := ih h'
        exact ⟨e', by simp [gather, he']⟩

theorem gather_ok_of_forall_ok {α : Type} {l : List (Except TransportError α)}
    (h : ∀ x ∈ l, ∃ r, x = Except.ok r) : ∃ rs, gather l = .ok rs := by
  induction l with
  | nil => exact ⟨[], rfl⟩
  | cons x rest ih =>
    obtain ⟨r, hr⟩ := h x (List.mem_cons_self x rest)
    obtain ⟨rs, hrs⟩ := ih (fun y hy => h y (List.mem_cons_of_mem x hy))
    subst hr
    exact ⟨r :: rs, by simp [gather, hrs]⟩

/-- When every retrieval returns a response (no transport error), the fetcher
computes the counts positionally. -/
theorem get_player_counts_pure (provider : Nat → MetricResponse) (app_ids app_players : List Nat) :
    get_player_counts (fun id => .ok (provider id)) app_ids app_players =
      .ok (app_players ++ app_ids.map (fun id => extractCount (provider id))) := by
  have h1 : app_ids.map (fun id => Except.ok (ε := TransportError) (provider id)) =
      (app_ids.map provider).map Except.ok := by
    rw [List.map_map]; rfl
  rw [get_player_counts, h1, gather_map_ok]
  simp [List.map_map]

theorem mem_tagFrom {α : Type} {x : Nat × α} : ∀ {k : Nat} {rs : List α},
    x ∈ tagFrom k rs ↔ ∃ m, x.1 = k + m ∧ rs[m]? = some x.2 := by
  intro k rs
  induction rs generalizing k with
  | nil => simp [tagFrom]
  | cons r rest ih =>
    rw [tagFrom]
    constructor
    · intro hx
      rcases List.mem_cons.mp hx with h | h
      · refine ⟨0, ?_, ?_⟩
        · simp [h]
        · simp [h]
      · obtain ⟨m, hm, hr⟩ := ih.mp h
        exact ⟨m + 1, by omega, by simpa using hr⟩
    · rintro ⟨m, hm, hr⟩
      cases m with
      | zero =>
        refine List.mem_cons.mpr (Or.inl ?_)
        have h2 : r = x.2 := by simpa using hr
        exact Prod.ext (by simpa using hm) h2.symm
      | succ m =>
        refine List.mem_cons.mpr (Or.inr ?_)
        exact ih.mpr ⟨m, by omega, by simpa using hr⟩

/-- Reading a launch index out of any completion order of the tagged futures
recovers that future's response: the index determines the future. -/
theorem find?_of_perm_tagFrom {rs : List MetricResponse} {completed : List (Nat × MetricResponse)}
    (hperm : completed.Perm (tagFrom 0 rs)) {i : Nat} {r : MetricResponse}
    (h : rs[i]? = some r) :
    completed.find? (fun p => p.1 == i) = some (i, r) := by
  have hmem : ((i, r) : Nat × MetricResponse) ∈ completed := by
    rw [hperm.mem_iff, mem_tagFrom]
    exact ⟨i, by simp, by simpa using h⟩
  have hsome : (completed.find? (fun p => p.1 == i)).isSome := by
    rw [List.find?_isSome]
    exact ⟨(i, r), hmem, by simp⟩
  obtain ⟨y, hy⟩ := Option.isSome_iff_exists.mp hsome
  have hyp := List.find?_some hy
  have h1 : y.1 = i := by simpa using hyp
  have hytag : y ∈ tagFrom 0 rs := hperm.mem_iff.mp (List.mem_of_find?_eq_some hy)
  obtain ⟨m, hm, hr⟩ := mem_tagFrom.mp hytag
  have hmi : m = i := by omega
  rw [hmi, h] at hr
  have h2 : r = y.2 := by injection hr
  rw [hy]
  congr 1
  exact Prod.ext h1 h2.symm

theorem collectFrom_spec {α : Type} {completed : List (Nat × α)} :
    ∀ (rs : List α) (off : Nat),
      (∀ m r, rs[m]? = some r → completed.find? (fun p => p.1 == off + m) = some (off + m, r)) →
      collectFrom completed off rs.length = some rs := by
  intro rs
  induction rs with
  | nil => intro off _; rfl
  | cons r rest ih =>
    intro off h
    have h0 : completed.find? (fun p => p.1 == off) = some (off, r) := by
      simpa using h 0 r (by simp)
    have hrec : collectFrom completed (off + 1) rest.length = some rest := by
      refine ih (off + 1) (fun m r' hm => ?_)
      have := h (m + 1) r' (by simpa using hm)
      have he : off + (m + 1) = off + 1 + m := by omega
      rwa [he] at this
    simp only [List.length_cons, collectFrom, h0, hrec]

/-! ## Claims about the metric fetcher -/

/-- C1: for every non-empty id sequence, `get_player_counts` produces an
output of exactly the input's length, and the value at output position `i`
is the metric extracted from the response retrieved for `ids[i]`, for every
completion order of the concurrent per-id retrievals (any permutation of
the tagged futures). -/
theorem claim1_positional_correspondence (provider : Nat → MetricResponse)
    (app_ids : List Nat) (completed : List (Nat × MetricResponse))
    (hne : app_ids ≠ [])
    (hperm : completed.Perm (tagFrom 0 (app_ids.map provider))) :
    ∃ out, get_player_counts_sched app_ids completed [] = some out ∧
      out.length = app_ids.length ∧
      ∀ (i : Nat) (id_i : Nat), app_ids[i]? = some id_i →
        out[i]? = some (extractCount (provider id_i)) := by
  have hcoll : collectFrom completed 0 (app_ids.map provider).length =
      some (app_ids.map provider) := by
    refine collectFrom_spec (app_ids.map provider) 0 (fun m r hm => ?_)
    have h0 : (0 : Nat) + m = m := by omega
    rw [h0]
    exact find?_of_perm_tagFrom hperm hm
  rw [List.length_map] at hcoll
  refine ⟨(app_ids.map provider).map extractCount, ?_, by simp, ?_⟩
  · rw [get_player_counts_sched, hcoll]
    rfl
  · intro i id_i hi
    rw [List.getElem?_map, List.getElem?_map, hi]
    rfl

/-- C1 witness: two ids whose futures complete in reverse launch order. -/
theorem claim1_witness :
    ∃ out, get_player_counts_sched [100, 200] wCompleted [] = some out ∧
      out.length = ([100, 200] : List Nat).length ∧
      ∀ (i : Nat) (id_i : Nat), ([100, 200] : List Nat)[i]? = some id_i →
        out[i]? = some (extractCount (wProvider id_i)) :=
  claim1_positional_correspondence wProvider [100, 200] wCompleted
    (by decide)
    (by
      show wCompleted.Perm (tagFrom 0 [wProvider 100, wProvider 200])
      rw [tagFrom, tagFrom, tagFrom]
      exact List.Perm.swap _ _ _)

/-- C4: if the retrieval for `ids[i]` returns a response whose
`response.player_count` field is absent, the output value at position `i`
is exactly 0, every position `j` is exactly the extraction of the response
for `ids[j]` (so no other position is affected), and the batch completes
with `ok`. -/
theorem claim4_missing_field_defaults_zero (provider : Nat → MetricResponse)
    (app_ids : List Nat) (i : Nat) (id_i : Nat) (hi : app_ids[i]? = some id_i)
    (pr : PlayerResponse) (hresp : (provider id_i).response = some pr)
    (habs : pr.player_count = none) :
    ∃ out, get_player_counts (fun id => .ok (provider id)) app_ids [] = .ok out ∧
      out.length = app_ids.length ∧
      out[i]? = some 0 ∧
      ∀ (j : Nat) (id_j : Nat), app_ids[j]? = some id_j →
        out[j]? = some (extractCount (provider id_j)) := by
  refine ⟨app_ids.map (fun id => extractCount (provider id)), ?_, by simp, ?_, ?_⟩
  · simpa using get_player_counts_pure provider app_ids []
  · rw [List.getElem?_map, hi]
    simp [extractCount, hresp, habs]
  · intro j id_j hj
    rw [List.getElem?_map, hj]
    rfl

/-- C4 witness: a single id whose response has no `player_count` key. -/
theorem claim4_witness :
    ∃ out, get_player_counts (fun id => .ok (wProviderAbsent id)) [42] [] = .ok out ∧
      out.length = ([42] : List Nat).length ∧
      out[0]? = some 0 ∧
      ∀ (j : Nat) (id_j : Nat), ([42] : List Nat)[j]? = some id_j →
        out[j]? = some (extractCount (wProviderAbsent id_j)) :=
  claim4_missing_field_defaults_zero wProviderAbsent [42] 0 42 rfl ⟨none⟩ rfl rfl

/-- C5 counterexample: a transport-level failure (timeout) for the single id
570 does not yield the claimed `ok [0]`; the exception propagates out of
`gather` and the whole batch fails. -/
theorem claim5_counterexample :
    get_player_counts failFetch [570] [] = .error .timeout ∧
      ∀ out : List Nat, get_player_counts failFetch [570] [] ≠ .ok out := by
  have h1 : get_player_counts failFetch [570] [] = .error .timeout := rfl
  exact ⟨h1, fun out h => by rw [h1] at h; exact Except.noConfusion h⟩

/-- C5 amended: a transport-level failure for any id in the batch aborts the
whole batch (the exception is raised out of `asyncio.gather`, outside the
`except KeyError` handler, so no 0 is substituted and no value is reported
for any id); only when every retrieval returns a response does the batch
complete, and then with one value per id. -/
theorem claim5_amended (fetch : Nat → Except TransportError MetricResponse)
    (app_ids : List Nat) :
    ((∃ id ∈ app_ids, ∃ e, fetch id = .error e) →
        ∃ e', get_player_counts fetch app_ids [] = .error e') ∧
      ((∀ id ∈ app_ids, ∃ r, fetch id = .ok r) →
        ∃ out, get_player_counts fetch app_ids [] = .ok out ∧
          out.length = app_ids.length) := by
  constructor
  · rintro ⟨id, hid, e, he⟩
    have hmem : Except.error e ∈ app_ids.map fetch := by
      rw [← he]
      exact List.mem_map_of_mem fetch hid
    obtain ⟨e', he'⟩ := gather_error_of_mem hmem
    exact ⟨e', by rw [get_player_counts, he']⟩
  · intro hok
    have h : ∀ x ∈ app_ids.map fetch, ∃ r, x = Except.ok r := by
      intro x hx
      obtain ⟨id, hid, rfl⟩ := List.mem_map.mp hx
      obtain ⟨r, hr⟩ := hok id hid
      exact ⟨r, hr⟩
    obtain ⟨rs, hrs⟩ := gather_ok_of_forall_ok h
    refine ⟨rs.map extractCount, by rw [get_player_counts, hrs]; rfl, ?_⟩
    have := gather_ok_length hrs
    simp at this
    simp [this]

/-- C5 amended witness: one failing batch (timeout on id 570) and one
succeeding batch. -/
theorem claim5_amended_witness :
    (∃ e', get_player_counts failFetch [570] [] = .error e') ∧
      ∃ out, get_player_counts okFetch [570] [] = .ok out ∧
        out.length = ([570] : List Nat).length :=
  ⟨(claim5_amended failFetch [570]).1 ⟨570, by simp, .timeout, rfl⟩,
   (claim5_amended okFetch [570]).2 (fun id _ => ⟨⟨some ⟨some 7⟩⟩, rfl⟩)⟩

/-! ## Lemmas about the presenter's sort -/

theorem charListLe_trans : ∀ as bs cs : List Char,
    charListLe as bs = true → charListLe bs cs = true → charListLe as cs = true
  | [], _, _, _, _ => rfl
  | _ :: _, [], _, h, _ => by simp [charListLe] at h
  | _ :: _, _ :: _, [], _, h => by simp [charListLe] at h
  | a :: as, b :: bs, c :: cs, h1, h2 => by
    simp only [charListLe, Bool.or_eq_true, Bool.and_eq_true, decide_eq_true_eq,
      beq_iff_eq] at h1 h2 ⊢
    rcases h1 with h1 | ⟨h1e, h1r⟩
    · rcases h2 with h2 | ⟨h2e, h2r⟩
      · exact Or.inl (by omega)
      · exact Or.inl (by omega)
    · rcases h2 with h2 | ⟨h2e, h2r⟩
      · exact Or.inl (by omega)
      · exact Or.inr ⟨by omega, charListLe_trans as bs cs h1r h2r⟩

theorem charListLe_total : ∀ as bs : List Char,
    (charListLe as bs || charListLe bs as) = true
  | [], _ => by simp [charListLe]
  | _ :: _, [] => by simp [charListLe]
  | a :: as, b :: bs => by
    simp only [charListLe, Bool.or_eq_true, Bool.and_eq_true, decide_eq_true_eq,
      beq_iff_eq]
    rcases Nat.lt_trichotomy a.toNat b.toNat with h | h | h
    · exact Or.inl (Or.inl h)
    · rcases Bool.or_eq_true _ _ |>.mp (charListLe_total as bs) with h' | h'
      · exact Or.inl (Or.inr ⟨h, h'⟩)
      · exact Or.inr (Or.inr ⟨h.symm, h'⟩)
    · exact Or.inr (Or.inl h)

theorem rowLe_trans (a b c : Row) (h1 : rowLe a b = true) (h2 : rowLe b c = true) :
    rowLe a c = true := by
  simp only [rowLe, Bool.or_eq_true, Bool.and_eq_true, decide_eq_true_eq,
    beq_iff_eq] at h1 h2 ⊢
  rcases h1 with h1 | ⟨h1e, h1'⟩
  · rcases h2 with h2 | ⟨h2e, _⟩
    · exact Or.inl (by omega)
    · exact Or.inl (by omega)
  · rcases h2 with h2 | ⟨h2e, h2'⟩
    · exact Or.inl (by omega)
    · refine Or.inr ⟨by omega, ?_⟩
      rcases h1' with h1' | ⟨h1e', h1s⟩
      · rcases h2' with h2' | ⟨h2e', _⟩
        · exact Or.inl (by omega)
        · exact Or.inl (by omega)
      · rcases h2' with h2' | ⟨h2e', h2s⟩
        · exact Or.inl (by omega)
        · exact Or.inr ⟨by omega, charListLe_trans _ _ _ h1s h2s⟩

theorem rowLe_total (a b : Row) : (rowLe a b || rowLe b a) = true := by
  simp only [rowLe, Bool.or_eq_true, Bool.and_eq_true, decide_eq_true_eq,
    beq_iff_eq]
  rcases Nat.lt_trichotomy a.1 b.1 with h | h | h
  · exact Or.inl (Or.inl h)
  · rcases Nat.lt_trichotomy a.2.1 b.2.1 with h' | h' | h'
    · exact Or.inl (Or.inr ⟨h, Or.inl h'⟩)
    · rcases Bool.or_eq_true _ _ |>.mp (charListLe_total a.2.2.data b.2.2.data) with hs | hs
      · exact Or.inl (Or.inr ⟨h, Or.inr ⟨h', hs⟩⟩)
      · exact Or.inr (Or.inr ⟨h.symm, Or.inr ⟨h'.symm, hs⟩⟩)
    · exact Or.inr (Or.inr ⟨h.symm, Or.inl h'⟩)
  · exact Or.inr (Or.inl h)

theorem insertRow_perm (a : Row) : ∀ l : List Row, (insertRow a l).Perm (a :: l)
  | [] => List.Perm.refl _
  | y :: ys => by
    rw [insertRow]
    by_cases h : rowLe a y = true
    · rw [if_pos h]
    · rw [if_neg h]
      exact ((insertRow_perm a ys).cons y).trans (List.Perm.swap a y ys)

theorem sortRows_perm : ∀ l : List Row, (sortRows l).Perm l
  | [] => List.Perm.refl _
  | a :: rest =>
    (insertRow_perm a (sortRows rest)).trans ((sortRows_perm rest).cons a)

theorem mem_insertRow {a z : Row} : ∀ {l : List Row},
    z ∈ insertRow a l → z = a ∨ z ∈ l := by
  intro l hz
  have := (insertRow_perm a l).mem_iff.mp hz
  simpa using this

theorem pairwise_insertRow (a : Row) : ∀ {l : List Row},
    l.Pairwise (fun x y => rowLe x y = true) →
    (insertRow a l).Pairwise (fun x y => rowLe x y = true) := by
  intro l
  induction l with
  | nil => intro _; simp [insertRow]
  | cons y ys ih =>
    intro h
    obtain ⟨hy, hys⟩ := List.pairwise_cons.mp h
    rw [insertRow]
    by_cases hay : rowLe a y = true
    · rw [if_pos hay]
      refine List.pairwise_cons.mpr ⟨?_, h⟩
      intro z hz
      rcases List.mem_cons.mp hz with rfl | hz'
      · exact hay
      · exact rowLe_trans a y z hay (hy z hz')
    · rw [if_neg hay]
      have hya : rowLe y a = true := by
        rcases Bool.or_eq_true _ _ |>.mp (rowLe_total a y) with h' | h'
        · exact absurd h' hay
        · exact h'
      refine List.pairwise_cons.mpr ⟨?_, ih hys⟩
      intro z hz
      rcases mem_insertRow hz with rfl | hz'
      · exact hya
      · exact hy z hz'

theorem sortRows_pairwise : ∀ l : List Row,
    (sortRows l).Pairwise (fun x y => rowLe x y = true)
  | [] => List.Pairwise.nil
  | a :: rest => pairwise_insertRow a (sortRows_pairwise rest)

theorem sortRows_of_pairwise : ∀ {l : List Row},
    l.Pairwise (fun x y => rowLe x y = true) → sortRows l = l
  | [], _ => rfl
  | a :: rest, h => by
    rw [sortRows, sortRows_of_pairwise h.of_cons]
    cases rest with
    | nil => rfl
    | cons y ys =>
      have hay : rowLe a y = true :=
        (List.pairwise_cons.mp h).1 y (List.mem_cons_self y ys)
      rw [insertRow, if_pos hay]

/-! ## Claims about the presenter's sort and selection -/

/-- C2: the presenter's sort of the zipped `(value, id, name)` records is a
permutation of the input, ascending under the lexicographic composite key
`(value, id, name)` (so id is the deterministic tie-break for equal values),
and stable (an input already in order is returned unchanged, so equal
records keep their relative order); in particular values `[5, 5, 3]` with
ids `[20, 10, 30]` sort to `[(3, 30), (5, 10), (5, 20)]`. -/
theorem claim2_sort_ascending_by_value_id :
    (∀ l : List Row,
        (sortRows l).Perm l ∧
        (sortRows l).Pairwise (fun x y => rowLe x y = true) ∧
        (l.Pairwise (fun x y => rowLe x y = true) → sortRows l = l)) ∧
      sortRows [(5, 20, "alpha"), (5, 10, "beta"), (3, 30, "gamma")] =
        [(3, 30, "gamma"), (5, 10, "beta"), (5, 20, "alpha")] := by
  refine ⟨fun l => ⟨sortRows_perm l, sortRows_pairwise l, sortRows_of_pairwise⟩, ?_⟩
  decide

/-- C2 witness: the stability clause applied to a concrete ordered list. -/
theorem claim2_witness :
    sortRows [(1, 1, "a"), (2, 2, "b")] = [(1, 1, "a"), (2, 2, "b")] :=
  (claim2_sort_ascending_by_value_id.1 [(1, 1, "a"), (2, 2, "b")]).2.2 (by decide)

theorem popLoop_fst (k : Nat) : ∀ (fuel n : Nat) (display rest : List Row),
    fuel ≤ rest.length →
    (popLoop k fuel n display rest).1 = display ++ rest.reverse.take (min (k - n) fuel) := by
  intro fuel
  induction fuel with
  | zero => intro n display rest _; simp [popLoop]
  | succ fuel ih =>
    intro n display rest hle
    rw [popLoop]
    by_cases hkn : k ≤ n
    · rw [if_pos hkn]
      have h0 : k - n = 0 := by omega
      simp [h0]
    · rw [if_neg hkn]
      have hrest : rest ≠ [] := by
        intro h
        rw [h] at hle
        simp at hle
      rw [List.getLast?_eq_getLast rest hrest]
      have hlen : fuel ≤ rest.dropLast.length := by
        rw [List.length_dropLast]
        omega
      rw [ih (n + 1) (display ++ [rest.getLast hrest]) rest.dropLast hlen]
      have hrev : rest.reverse = rest.getLast hrest :: rest.dropLast.reverse := by
        conv =>
          lhs
          rw [← List.dropLast_concat_getLast hrest]
        rw [List.reverse_append]
        rfl
      have hmin : min (k - n) (fuel + 1) = min (k - (n + 1)) fuel + 1 := by omega
      rw [hrev, hmin, List.take_succ_cons, List.append_assoc]
      rfl

theorem selectDisplay_eq_take (l : List Row) (k : Nat) :
    selectDisplay l k = l.reverse.take k := by
  rw [selectDisplay, popLoop_fst k l.length 0 [] l (Nat.le_refl _)]
  rw [List.nil_append, Nat.sub_zero]
  rcases Nat.le_total k l.length with h | h
  · rw [Nat.min_eq_left h]
  · rw [Nat.min_eq_right h]
    rw [← List.length_reverse l, List.take_length]
    exact (List.take_of_length_le (by simpa using h)).symm

/-- C3: the presenter selects by repeatedly popping from the end of the
ascending-sorted sequence: the display set equals the first
`min displayCount total` elements of the reversed sequence, it is all the
records when `displayCount` exceeds the total, it is descending, and every
displayed record is `rowLe`-above every record left undisplayed — i.e.
exactly the `min displayCount total` highest records in descending order. -/
theorem claim3_selection_takes_top_k (l : List Row) (k : Nat)
    (hsorted : l.Pairwise (fun x y => rowLe x y = true)) :
    selectDisplay l k = l.reverse.take k ∧
      (selectDisplay l k).length = min k l.length ∧
      (l.length ≤ k → selectDisplay l k = l.reverse) ∧
      (selectDisplay l k).Pairwise (fun x y => rowLe y x = true) ∧
      (∀ x ∈ selectDisplay l k, ∀ y ∈ l.take (l.length - k), rowLe y x = true) := by
  have heq := selectDisplay_eq_take l k
  refine ⟨heq, ?_, ?_, ?_, ?_⟩
  · rw [heq, List.length_take, List.length_reverse]
  · intro h
    rw [heq]
    exact List.take_of_length_le (by simpa using h)
  · rw [heq]
    have hrev : l.reverse.Pairwise (fun x y => rowLe y x = true) :=
      List.pairwise_reverse.mpr hsorted
    exact hrev.sublist (List.take_sublist k l.reverse)
  · intro x hx y hy
    rw [heq, List.take_reverse, List.mem_reverse] at hx
    have hsplit : l.take (l.length - k) ++ l.drop (l.length - k) = l :=
      List.take_append_drop (l.length - k) l
    have hp : (l.take (l.length - k) ++ l.drop (l.length - k)).Pairwise
        (fun x y => rowLe x y = true) := by
      rw [hsplit]
      exact hsorted
    exact (List.pairwise_append.mp hp).2.2 y hy x hx

/-- C3 witness: seven ascending records displayed with `displayCount = 3`. -/
theorem claim3_witness :
    selectDisplay
        [(1, 1, "a"), (2, 2, "b"), (3, 3, "c"), (4, 4, "d"), (5, 5, "e"), (6, 6, "f"), (7, 7, "g")] 3 =
        ([(1, 1, "a"), (2, 2, "b"), (3, 3, "c"), (4, 4, "d"), (5, 5, "e"), (6, 6, "f"),
          (7, 7, "g")] : List Row).reverse.take 3 ∧
      (selectDisplay
        [(1, 1, "a"), (2, 2, "b"), (3, 3, "c"), (4, 4, "d"), (5, 5, "e"), (6, 6, "f"), (7, 7, "g")] 3).length =
        min 3 ([(1, 1, "a"), (2, 2, "b"), (3, 3, "c"), (4, 4, "d"), (5, 5, "e"), (6, 6, "f"),
          (7, 7, "g")] : List Row).length ∧
      (([(1, 1, "a"), (2, 2, "b"), (3, 3, "c"), (4, 4, "d"), (5, 5, "e"), (6, 6, "f"),
          (7, 7, "g")] : List Row).length ≤ 3 →
        selectDisplay
          [(1, 1, "a"), (2, 2, "b"), (3, 3, "c"), (4, 4, "d"), (5, 5, "e"), (6, 6, "f"), (7, 7, "g")] 3 =
          ([(1, 1, "a"), (2, 2, "b"), (3, 3, "c"), (4, 4, "d"), (5, 5, "e"), (6, 6, "f"),
            (7, 7, "g")] : List Row).reverse) ∧
      (selectDisplay
        [(1, 1, "a"), (2, 2, "b"), (3, 3, "c"), (4, 4, "d"), (5, 5, "e"), (6, 6, "f"), (7, 7, "g")] 3).Pairwise
        (fun x y => rowLe y x = true) ∧
      (∀ x ∈ selectDisplay
          [(1, 1, "a"), (2, 2, "b"), (3, 3, "c"), (4, 4, "d"), (5, 5, "e"), (6, 6, "f"), (7, 7, "g")] 3,
        ∀ y ∈ ([(1, 1, "a"), (2, 2, "b"), (3, 3, "c"), (4, 4, "d"), (5, 5, "e"), (6, 6, "f"),
            (7, 7, "g")] : List Row).take
          (([(1, 1, "a"), (2, 2, "b"), (3, 3, "c"), (4, 4, "d"), (5, 5, "e"), (6, 6, "f"),
            (7, 7, "g")] : List Row).length - 3),
        rowLe y x = true) :=
  claim3_selection_takes_top_k
    [(1, 1, "a"), (2, 2, "b"), (3, 3, "c"), (4, 4, "d"), (5, 5, "e"), (6, 6, "f"), (7, 7, "g")] 3
    (by decide)

/-! ## Lemmas about the catalog matcher -/

theorem matchHere_lits : ∀ (cs ds : List Char),
    (matchHere (cs.map RTok.lit) ds = true ↔ cs <+: ds)
  | [], ds => by simp [matchHere]
  | c :: cs, [] => by simp [matchHere]
  | c :: cs, d :: ds => by
    rw [List.map_cons, matchHere]
    simp only [tokMatch, Bool.and_eq_true, beq_iff_eq, List.cons_prefix_cons]
    exact and_congr Iff.rfl (matchHere_lits cs ds)

theorem searchTokens_iff : ∀ (p : List RTok) (ds : List Char),
    (searchTokens p ds = true ↔ ∃ ds', ds' <:+ ds ∧ matchHere p ds' = true)
  | p, [] => by
    rw [searchTokens]
    constructor
    · intro h
      exact ⟨[], List.suffix_rfl, h⟩
    · rintro ⟨ds', hsuf, hm⟩
      rw [List.suffix_nil.mp hsuf] at hm
      exact hm
  | p, c :: cs => by
    rw [searchTokens]
    simp only [Bool.or_eq_true]
    constructor
    · rintro (h | h)
      · exact ⟨c :: cs, List.suffix_rfl, h⟩
      · obtain ⟨ds', hsuf, hm⟩ := (searchTokens_iff p cs).mp h
        exact ⟨ds', hsuf.trans (List.suffix_cons c cs), hm⟩
    · rintro ⟨ds', hsuf, hm⟩
      rcases List.suffix_cons_iff.mp hsuf with rfl | hsuf'
      · exact Or.inl hm
      · exact Or.inr ((searchTokens_iff p cs).mpr ⟨ds', hsuf', hm⟩)

/-- The compiled, escaped query matches a name exactly when the lowered
query is a contiguous substring of the lowered name. -/
theorem appMatches_iff (q n : String) :
    appMatches q n = true ↔ strLower q <:+: strLower n := by
  rw [appMatches, re_escape, searchTokens_iff, List.infix_iff_prefix_suffix]
  constructor
  · rintro ⟨ds', hsuf, hm⟩
    exact ⟨ds', (matchHere_lits _ _).mp hm, hsuf⟩
  · rintro ⟨t, hpre, hsuf⟩
    exact ⟨t, hsuf, (matchHere_lits _ _).mpr hpre⟩

/-- C6: query matching is case-insensitive literal substring containment:
the escaped query matches a name exactly when the lowered query occurs
literally as a substring of the lowered name; in particular the query
`"a.c"` does not match `"AXC"` (the period is not a wildcard) but does
match `"xA.Cy"`, whereas the same pattern compiled unescaped (period as
any-character metacharacter) would match `"AXC"`. -/
theorem claim6_literal_case_insensitive_match :
    (∀ q n : String, appMatches q n = true ↔ strLower q <:+: strLower n) ∧
      appMatches "a.c" "AXC" = false ∧
      appMatches "a.c" "xA.Cy" = true ∧
      searchTokens (compileRaw (strLower "a.c")) (strLower "AXC") = true := by
  refine ⟨appMatches_iff, ?_, ?_, ?_⟩ <;> decide

/-! ## Claims about the presenter's empty-input and width handling -/

/-- Once both emptiness checks pass, `print_player_table` never lands in a
`noMatches` branch: the remaining control flow only crashes or renders. -/
theorem print_player_table_ne_noMatches (found_app_ids : List Nat)
    (found_app_names : List String) (found_app_players : List Nat)
    (num_rows : Nat) (print_list : Bool) (term_width : Option Nat)
    (hi : found_app_ids ≠ []) (hn : found_app_names ≠ []) (msg : String) :
    print_player_table found_app_ids found_app_names found_app_players
      num_rows print_list term_width ≠ .noMatches msg := by
  rw [print_player_table]
  rw [if_neg (by simpa using hi), if_neg (by simpa using hn)]
  cases term_width with
  | none => exact fun h => RenderResult.noConfusion h
  | some w =>
    dsimp only
    by_cases hpl : print_list = true
    · rw [if_pos hpl]
      exact fun h => RenderResult.noConfusion h
    · rw [if_neg hpl]
      cases hmax : maxByLen ((selectDisplay
          (sortRows (found_app_players.zip (found_app_ids.zip found_app_names)))
          num_rows).map (fun r => r.2.2)) with
      | none => exact fun h => RenderResult.noConfusion h
      | some longest => exact fun h => RenderResult.noConfusion h

/-- C7: with zero candidate ids or zero names, the presenter reports a
"no results" message on stderr and ends the run cleanly (the `noMatches`
outcome, which is `sys.exit()` after the message), rendering no table. -/
theorem claim7_no_results_clean_exit (found_app_ids : List Nat)
    (found_app_names : List String) (found_app_players : List Nat)
    (num_rows : Nat) (print_list : Bool) (term_width : Option Nat)
    (h : found_app_ids = [] ∨ found_app_names = []) :
    ∃ msg, print_player_table found_app_ids found_app_names found_app_players
        num_rows print_list term_width = .noMatches msg ∧
      ∀ lines, print_player_table found_app_ids found_app_names found_app_players
        num_rows print_list term_width ≠ .output lines := by
  by_cases hi : found_app_ids = []
  · refine ⟨"No App ID\x27s found with search term", ?_, ?_⟩
    · rw [print_player_table, if_pos (by simpa using hi)]
    · intro lines hcontra
      rw [print_player_table, if_pos (by simpa using hi)] at hcontra
      exact RenderResult.noConfusion hcontra
  · have hn : found_app_names = [] := h.resolve_left hi
    refine ⟨"No App Names found with search term", ?_, ?_⟩
    · rw [print_player_table, if_neg (by simpa using hi), if_pos (by simpa using hn)]
    · intro lines hcontra
      rw [print_player_table, if_neg (by simpa using hi),
        if_pos (by simpa using hn)] at hcontra
      exact RenderResult.noConfusion hcontra

/-- C7 witness: an empty candidate list. -/
theorem claim7_witness :
    ∃ msg, print_player_table [] ["x"] [] 10 false (some 80) = .noMatches msg ∧
      ∀ lines, print_player_table [] ["x"] [] 10 false (some 80) ≠ .output lines :=
  claim7_no_results_clean_exit [] ["x"] [] 10 false (some 80) (Or.inl rfl)

/-- C8 counterexample: with the terminal width unavailable the render call
does not fall back to a default width; it crashes with the uncaught
`OSError` of `os.get_terminal_size` and produces no output. -/
theorem claim8_counterexample :
    print_player_table [10] ["Portal"] [3] 10 false none = .crashed "OSError" ∧
      ∀ lines, print_player_table [10] ["Portal"] [3] 10 false none ≠ .output lines := by
  have h1 : print_player_table [10] ["Portal"] [3] 10 false none = .crashed "OSError" := by
    decide
  refine ⟨h1, fun lines hcontra => ?_⟩
  rw [h1] at hcontra
  exact RenderResult.noConfusion hcontra

/-- C8 amended: the presenter reads the width with
`os.get_terminal_size()`, which raises `OSError` when no terminal is
attached; there is no fallback default, so whenever the width is
unavailable (and the empty-input checks passed) rendering aborts with the
uncaught exception. -/
theorem claim8_amended (found_app_ids : List Nat) (found_app_names : List String)
    (found_app_players : List Nat) (num_rows : Nat) (print_list : Bool)
    (hi : found_app_ids ≠ []) (hn : found_app_names ≠ []) :
    print_player_table found_app_ids found_app_names found_app_players
      num_rows print_list none = .crashed "OSError" := by
  rw [print_player_table]
  rw [if_neg (by simpa using hi), if_neg (by simpa using hn)]

/-- C8 amended witness. -/
theorem claim8_amended_witness :
    print_player_table [10] ["Portal"] [3] 10 true none = .crashed "OSError" :=
  claim8_amended [10] ["Portal"] [3] 10 true (by decide) (by decide)

/-! ## Claims about the cache phase of `main` -/

/-- C9 counterexample: `--clear-cache` with the cache directory already
absent is not a no-op success: `os.removedirs` raises `FileNotFoundError`
and the process fails (no refetch happens). -/
theorem claim9_counterexample :
    main_cache_phase true ⟨false, false⟩ = .error .fileNotFound ∧
      ∀ o : CacheOutcome, main_cache_phase true ⟨false, false⟩ ≠ .ok o := by
  have h1 : main_cache_phase true ⟨false, false⟩ = .error .fileNotFound := rfl
  exact ⟨h1, fun o hcontra => by rw [h1] at hcontra; exact Except.noConfusion hcontra⟩

/-- C9 amended: invoking cache invalidation on an already absent cache
directory raises `FileNotFoundError` and aborts the run (it is not treated
as a no-op success); when the directory exists and the cache file is
already gone, invalidation succeeds and the subsequent ensure step refetches
the catalog. -/
theorem claim9_amended (fs : CacheFS) :
    (fs.dirExists = false → main_cache_phase true fs = .error .fileNotFound) ∧
      (fs.dirExists = true → fs.fileExists = false →
        main_cache_phase true fs = .ok ⟨⟨true, true⟩, true⟩) := by
  obtain ⟨d, f⟩ := fs
  constructor
  · rintro h
    simp only at h
    subst h
    rfl
  · rintro h1 h2
    simp only at h1 h2
    subst h1
    subst h2
    rfl

/-- C9 amended witness: the failing absent-directory case and the
succeeding empty-directory case. -/
theorem claim9_witness :
    main_cache_phase true ⟨false, false⟩ = .error .fileNotFound ∧
      main_cache_phase true ⟨true, false⟩ = .ok ⟨⟨true, true⟩, true⟩ :=
  ⟨(claim9_amended ⟨false, false⟩).1 rfl, (claim9_amended ⟨true, false⟩).2 rfl rfl⟩

/-! ## Claim about the alignment of the three result lists -/

/-- C10: whenever `get_apps_info` succeeds, the three returned lists have
equal length, position `i` of the names is the catalog name of an entry
whose id sits at position `i` of the ids, and consequently the presenter's
"No App Names found" branch is unreachable when the ids are non-empty. -/
theorem claim10_parallel_lists_aligned (app_list : List CatalogEntry)
    (fetch : Nat → Except TransportError MetricResponse) (q : String)
    (ids : List Nat) (names : List String) (players : List Nat)
    (h : get_apps_info app_list fetch q = .ok (ids, names, players)) :
    names.length = ids.length ∧ players.length = ids.length ∧
      (∀ (i : Nat) (id_i : Nat) (name_i : String),
        ids[i]? = some id_i → names[i]? = some name_i →
        ∃ e ∈ app_list, e.appid = id_i ∧ e.name = name_i) ∧
      (ids ≠ [] → ∀ num_rows print_list term_width,
        print_player_table ids names players num_rows print_list term_width ≠
          .noMatches "No App Names found with search term") := by
  rw [get_apps_info] at h
  set found := app_list.filter (fun e => appMatches q e.name) with hfound
  cases hg : get_player_counts fetch (found.map (fun e => e.appid)) [] with
  | error e => rw [hg] at h; exact Except.noConfusion h
  | ok vals =>
    rw [hg] at h
    injection h with h
    injection h with hids h
    injection h with hnames hplayers
    subst hids
    subst hnames
    subst hplayers
    have hlen_names : (found.map (fun e => e.name)).length =
        (found.map (fun e => e.appid)).length := by simp
    refine ⟨hlen_names, ?_, ?_, ?_⟩
    · rw [get_player_counts] at hg
      cases hgg : gather ((found.map (fun e => e.appid)).map fetch) with
      | error e => rw [hgg] at hg; exact Except.noConfusion hg
      | ok rs =>
        rw [hgg] at hg
        injection hg with hg
        have := gather_ok_length hgg
        simp only [List.length_map] at this
        rw [← hg]
        simp [this]
    · intro i id_i name_i hid hname
      rw [List.getElem?_map] at hid hname
      cases hfi : found[i]? with
      | none => rw [hfi] at hid; exact Option.noConfusion hid
      | some e =>
        rw [hfi] at hid hname
        refine ⟨e, ?_, ?_, ?_⟩
        · exact List.mem_of_mem_filter (List.getElem?_mem hfi)
        · injection hid
        · injection hname
    · intro hne num_rows print_list term_width
      apply print_player_table_ne_noMatches
      · exact hne
      · intro hempty
        apply hne
        have : (found.map (fun e => e.name)).length = 0 := by rw [hempty]; rfl
        rw [hlen_names] at this
        exact List.eq_nil_of_length_eq_zero this

/-- C10 witness: a concrete catalog, query, and all-ok fetch. -/
theorem claim10_witness :
    (["Portal", "Dota"] : List String).length = ([10, 20] : List Nat).length ∧
      ([7, 7] : List Nat).length = ([10, 20] : List Nat).length ∧
      (∀ (i : Nat) (id_i : Nat) (name_i : String),
        ([10, 20] : List Nat)[i]? = some id_i →
        (["Portal", "Dota"] : List String)[i]? = some name_i →
        ∃ e ∈ wCatalog, e.appid = id_i ∧ e.name = name_i) ∧
      (([10, 20] : List Nat) ≠ [] → ∀ num_rows print_list term_width,
        print_player_table [10, 20] ["Portal", "Dota"] [7, 7]
            num_rows print_list term_width ≠
          .noMatches "No App Names found with search term") :=
  claim10_parallel_lists_aligned wCatalog okFetch "o" [10, 20] ["Portal", "Dota"] [7, 7]
    (by rfl)

end SteamScripts
